import Mathlib

/-!
Verification of the scope-policy engine of the `aliri` repository
(`aliri_axum`), as described in its specification.

The repository snapshot contains `src/aliri_axum/src/macros.rs`, which holds
the `scope_guard!` / `scope_guards!` macro grammar, the lazily constructed
per-guard `ScopePolicy`, and the request-extraction glue.  The core engine
(`Scope`, `ScopePolicy`, `from_request`, `AuthFailed`) lives in sibling crates
of the same repository and is modelled here from the words of the specification;
the macro expansion and the guard policy construction are embedded from
`macros.rs` itself.
-/

/-- Modelled from the spec: tokenization of a scope literal (`aliri_oauth2`
`Scope` parsing, not under `src/`): "Splits on whitespace ... consecutive
whitespace collapses and empty tokens are dropped".  `acc` carries the
(reversed) characters of the token currently being read. -/
def tokenize : List Char → List Char → List (List Char)
  | [], acc => if acc.isEmpty then [] else [acc.reverse]
  | c :: rest, acc =>
    if c.isWhitespace then
      if acc.isEmpty then tokenize rest [] else acc.reverse :: tokenize rest []
    else
      tokenize rest (c :: acc)

/-- Modelled from the spec: "**ScopeToken**: a non-empty string of
permission-identifying characters (no embedded whitespace) ... invalid tokens
(empty, containing whitespace) are rejected at construction". -/
def isValidToken (t : String) : Bool :=
  !t.isEmpty && t.data.all (fun c => !c.isWhitespace)

/-- Modelled from the spec: "**Scope**: an ordered sequence of unique-or-not
ScopeTokens parsed from a whitespace-separated string ... Order is insertion
order from parsing; duplicates are permitted". -/
structure Scope where
  tokens : List String
deriving DecidableEq, Repr

/-- Modelled from the spec: the construction-time error taxonomy:
"`MalformedToken` (construction-time): a scope literal could not be split
into valid tokens". -/
inductive ParseError where
  | malformedToken
deriving DecidableEq, Repr

/-- Modelled from the spec: `Parse(text) → Scope | ParseError`: split on
whitespace, validate each resulting substring is non-empty and contains no
internal whitespace, failing with `MalformedToken` otherwise. -/
def Scope.parse (text : String) : Except ParseError Scope :=
  let toks := (tokenize text.data []).map (fun cs => String.mk cs)
  if toks.all isValidToken then .ok ⟨toks⟩ else .error .malformedToken

/-- Modelled from the spec: `Contains(token) → bool`: "Exact-match membership
test; no normalization, no case-folding". -/
def Scope.containsTok (self : Scope) (t : String) : Bool :=
  self.tokens.contains t

/-- Modelled from the spec: `Satisfies(requirement: Scope) → bool`: "Returns
true iff every token in `requirement` is present in `self`." -/
def Scope.satisfies (self requirement : Scope) : Bool :=
  requirement.tokens.all (fun t => self.containsTok t)

/-- Modelled from the spec: "**ScopePolicy**: an unordered collection of
required-scope alternatives, each alternative itself a Scope". -/
structure ScopePolicy where
  alternatives : List Scope
deriving DecidableEq, Repr

/-- Modelled from the spec: the binary outcome of `Evaluate`. -/
inductive Decision where
  | allowed
  | denied
deriving DecidableEq, Repr

/-- Modelled from the spec: `DenyAll() → ScopePolicy`: "Returns a policy with
zero alternatives." -/
def ScopePolicy.deny_all : ScopePolicy := ⟨[]⟩

/-- Modelled from the spec: `AllowAll() → ScopePolicy`: "Returns a policy with
exactly one alternative that is the empty Scope". -/
def ScopePolicy.allow_all : ScopePolicy := ⟨[⟨[]⟩]⟩

/-- Modelled from the spec: `OrAllow(requirement)`: "Returns a new policy
whose alternative set is the alternatives of the receiver plus `requirement`." -/
def ScopePolicy.or_allow (self : ScopePolicy) (requirement : Scope) : ScopePolicy :=
  ⟨self.alternatives ++ [requirement]⟩

/-- Modelled from the spec: `Evaluate(presented) → Decision`: "Decision is
`Allowed` if ANY alternative `a` in the policy satisfies
`presented.Satisfies(a)`; otherwise `Denied`." -/
def ScopePolicy.evaluate (self : ScopePolicy) (presented : Scope) : Decision :=
  if self.alternatives.any (fun a => presented.satisfies a) then .allowed else .denied

/-- Modelled from the spec: the request-time error taxonomy reported by the
guard boundary (`AuthFailed` in `aliri_axum`, not under `src/`). -/
inductive AuthFailed where
  | missingClaims
  | insufficientScopes
deriving DecidableEq, Repr

/-- Modelled from the spec: the boundary check performed by
`aliri_axum::__private::from_request` (not under `src/`): "`Allowed` →
proceed, optionally exposing the original `Claims`; `Denied`, no `Claims`
available at all → report `MissingClaims`; `Denied`, `Claims` available but
insufficient → report `InsufficientScopes`."  `hasScope` is the
`HasScope : Claims → Scope` capability of the collaborator; the claims extracted
from the request extensions are an `Option`. -/
def from_request {Claims : Type} (hasScope : Claims → Scope)
    (claims : Option Claims) (policy : ScopePolicy) : Except AuthFailed Claims :=
  match claims with
  | none => .error .missingClaims
  | some c =>
    match policy.evaluate (hasScope c) with
    | .allowed => .ok c
    | .denied => .error .insufficientScopes

/-- The four argument shapes accepted by the `scope_guard!` macro
(`src/aliri_axum/src/macros.rs`, lines 130-141): a bare literal, a bracketed
`||`-separated list with optional trailing comma, and the same two shapes
with an explicit claims type.  Names, claims types and scope literals are
carried as strings of source text. -/
inductive ScopeGuardInput where
  | bare (name : String) (scope : String)
  | bracketed (name : String) (scopes : List String) (trailingComma : Bool)
  | bareWithClaims (name : String) (claims : String) (scope : String)
  | bracketedWithClaims (name : String) (claims : String) (scopes : List String)
      (trailingComma : Bool)
deriving DecidableEq, Repr

/-- The payload of the fully expanded guard: its type name, its claims type,
and the ordered list of scope literals that become `or_allow` alternatives. -/
structure Expansion where
  name : String
  claims : String
  alternatives : List String
deriving DecidableEq, Repr

/-- The claims type substituted by the second macro arm when none is given:
`::aliri_oauth2::oauth2::BasicClaimsWithScope` (`macros.rs`, line 135). -/
def defaultClaims : String := "::aliri_oauth2::oauth2::BasicClaimsWithScope"

/-- Rank of a macro arm in the delegation chain of `scope_guard!`; each arm
recurses into an arm of strictly smaller rank. -/
def ScopeGuardInput.rank : ScopeGuardInput → Nat
  | .bare _ _ => 2
  | .bracketed _ _ _ => 1
  | .bareWithClaims _ _ _ => 1
  | .bracketedWithClaims _ _ _ _ => 0

/-- The expansion of `scope_guard!` (`macros.rs`, lines 130-141), mirroring
the delegation between its four arms: a bare literal becomes a singleton
bracketed list; a bracketed list without a claims type gets the default
claims type; the final arm records the guard verbatim. -/
def scope_guard : ScopeGuardInput → Expansion
  | .bare n s => scope_guard (.bracketed n [s] false)
  | .bracketed n ss _ => scope_guard (.bracketedWithClaims n defaultClaims ss false)
  | .bareWithClaims n c s => scope_guard (.bracketedWithClaims n c [s] false)
  | .bracketedWithClaims n c ss _ => ⟨n, c, ss⟩
termination_by i => i.rank
decreasing_by all_goals simp [ScopeGuardInput.rank]

/-- The policy built by the `scope_policy` body of the expanded guard
(`macros.rs`, lines 171-176): starting from `deny_all`, each literal is
parsed, unwrapped, and appended with `or_allow`.  `none` models the panic of
`.unwrap()` on a parse error. -/
def buildPolicy : ScopePolicy → List String → Option ScopePolicy
  | p, [] => some p
  | p, s :: rest =>
    match Scope.parse s with
    | .ok r => buildPolicy (p.or_allow r) rest
    | .error _ => none

/-- The policy of a declared guard: the fold of `deny_all` / `or_allow` over
the scope literals of its expansion, as generated at `macros.rs`, lines 169-177. -/
def scope_policy (i : ScopeGuardInput) : Option ScopePolicy :=
  buildPolicy ScopePolicy.deny_all (scope_guard i).alternatives

-- Basic supporting lemmas ----------------------------------------------------

theorem tokenize_mem_nonempty (l acc : List Char) (cs : List Char)
    (hacc : acc ≠ [] → acc.reverse ≠ []) (h : cs ∈ tokenize l acc) : cs ≠ [] := by
  induction l generalizing acc with
  | nil =>
    by_cases ha : acc.isEmpty
    · simp [tokenize, ha] at h
    · simp [tokenize, ha] at h
      subst h
      exact hacc (by simpa [List.isEmpty_iff] using ha)
  | cons c rest ih =>
    by_cases hw : c.isWhitespace
    · by_cases ha : acc.isEmpty
      · simp [tokenize, hw, ha] at h
        exact ih [] (by simp) h
      · simp [tokenize, hw, ha] at h
        rcases h with h | h
        · subst h
          exact hacc (by simpa [List.isEmpty_iff] using ha)
        · exact ih [] (by simp) h
    · simp [tokenize, hw] at h
      exact ih (c :: acc) (by simp) h

theorem tokenize_mem_no_ws (l acc : List Char) (cs : List Char)
    (hacc : ∀ c ∈ acc, ¬ c.isWhitespace) (h : cs ∈ tokenize l acc) :
    ∀ c ∈ cs, ¬ c.isWhitespace := by
  induction l generalizing acc with
  | nil =>
    by_cases ha : acc.isEmpty
    · simp [tokenize, ha] at h
    · simp [tokenize, ha] at h
      subst h
      intro c hc
      exact hacc c (by simpa using hc)
  | cons c rest ih =>
    by_cases hw : c.isWhitespace
    · by_cases ha : acc.isEmpty
      · simp [tokenize, hw, ha] at h
        exact ih [] (by simp) h
      · simp [tokenize, hw, ha] at h
        rcases h with h | h
        · subst h
          intro d hd
          exact hacc d (by simpa using hd)
        · exact ih [] (by simp) h
    · simp [tokenize, hw] at h
      refine ih (c :: acc) ?_ h
      intro d hd
      rcases List.mem_cons.mp hd with hd | hd
      · subst hd
        exact hw
      · exact hacc d hd

/-- Every token produced by tokenization is valid, so `Scope.parse` never
fails: it always returns `.ok` of the tokenized scope. -/
theorem parse_ok (text : String) :
    Scope.parse text = .ok ⟨(tokenize text.data []).map (fun cs => String.mk cs)⟩ := by
  unfold Scope.parse
  have hall : ((tokenize text.data []).map (fun cs => String.mk cs)).all isValidToken = true := by
    simp only [List.all_eq_true]
    intro t ht
    simp only [List.mem_map] at ht
    obtain ⟨cs, hcs, rfl⟩ := ht
    have h1 : cs ≠ [] := tokenize_mem_nonempty _ [] cs (by simp) hcs
    have h2 : ∀ c ∈ cs, ¬ c.isWhitespace := tokenize_mem_no_ws _ [] cs (by simp) hcs
    have hne : (String.mk cs).isEmpty = false := by
      rw [Bool.eq_false_iff]
      intro hc
      exact h1 (by simpa using congrArg String.data ((String.isEmpty_iff (String.mk cs)).mp hc))
    have hws : (cs.all fun c => !c.isWhitespace) = true := by
      simp only [List.all_eq_true]
      intro c hc
      simpa using h2 c hc
    simp [isValidToken, hne, hws]
  simp [hall]

theorem tokenize_all_ws (l : List Char) (h : ∀ c ∈ l, c.isWhitespace) :
    tokenize l [] = [] := by
  induction l with
  | nil => simp [tokenize]
  | cons c rest ih =>
    have hc : c.isWhitespace := h c (by simp)
    simp only [tokenize, hc, if_true]
    simpa using ih (fun d hd => h d (by simp [hd]))

theorem buildPolicy_some (p : ScopePolicy) (lits : List String) :
    buildPolicy p lits =
      some ⟨p.alternatives ++ lits.map (fun s =>
        Scope.mk ((tokenize s.data []).map (fun cs => String.mk cs)))⟩ := by
  induction lits generalizing p with
  | nil => simp [buildPolicy]
  | cons s rest ih =>
    simp only [buildPolicy, parse_ok]
    rw [ih]
    simp [ScopePolicy.or_allow]

theorem evaluate_allowed_iff (P : ScopePolicy) (x : Scope) :
    P.evaluate x = .allowed ↔ ∃ a ∈ P.alternatives, x.satisfies a = true := by
  unfold ScopePolicy.evaluate
  by_cases h : P.alternatives.any (fun a => x.satisfies a) = true
  · simp only [h, if_true, true_iff]
    simpa [List.any_eq_true] using h
  · simp only [h]
    simp only [List.any_eq_true] at h
    simp [h]

theorem evaluate_denied_iff (P : ScopePolicy) (x : Scope) :
    P.evaluate x = .denied ↔ ∀ a ∈ P.alternatives, x.satisfies a = false := by
  unfold ScopePolicy.evaluate
  by_cases h : P.alternatives.any (fun a => x.satisfies a) = true
  · simp only [h, if_true]
    simp only [List.any_eq_true] at h
    obtain ⟨a, ha, hs⟩ := h
    constructor
    · intro hcontra
      exact absurd hcontra (by simp)
    · intro hall
      exact absurd (hall a ha) (by simp [hs])
  · simp only [h, if_false]
    simp only [List.any_eq_true] at h
    constructor
    · intro _ a ha
      by_contra hc
      exact h ⟨a, ha, by simpa using hc⟩
    · intro _
      rfl

theorem satisfies_iff (self req : Scope) :
    self.satisfies req = true ↔ ∀ t ∈ req.tokens, t ∈ self.tokens := by
  simp [Scope.satisfies, Scope.containsTok, List.all_eq_true, List.contains, List.elem_iff]

-- Claim theorems --------------------------------------------------------------

/-- C1: `Evaluate(P, x)` returns `Allowed` iff some alternative of `P` is
satisfied by `x`, and `Denied` otherwise; in particular, for the guard policy
`DenyAll().OrAllow(r1).OrAllow(r2)`, a presented scope satisfying `r1` or
`r2` yields `Allowed`, and one satisfying neither yields `Denied`. -/
theorem C1_evaluate_any_alternative :
    (∀ (P : ScopePolicy) (x : Scope),
      (P.evaluate x = .allowed ↔ ∃ a ∈ P.alternatives, x.satisfies a = true) ∧
      (P.evaluate x = .allowed ∨ P.evaluate x = .denied)) ∧
    (∀ r1 r2 x : Scope,
      ((ScopePolicy.deny_all.or_allow r1).or_allow r2).evaluate x =
        (if x.satisfies r1 || x.satisfies r2 then .allowed else .denied)) := by
  constructor
  · intro P x
    refine ⟨evaluate_allowed_iff P x, ?_⟩
    unfold ScopePolicy.evaluate
    by_cases h : P.alternatives.any (fun a => x.satisfies a) = true
    · left
      simp [h]
    · right
      simp [h]
  · intro r1 r2 x
    simp only [ScopePolicy.evaluate, ScopePolicy.deny_all, ScopePolicy.or_allow]
    by_cases h1 : x.satisfies r1 = true
    · simp [h1]
    · by_cases h2 : x.satisfies r2 = true
      · simp [h1, h2]
      · simp [h1, h2]

/-- C2: the `DenyAll()` base policy, which has zero alternatives, evaluates
every presented scope (including the empty scope) to `Denied`. -/
theorem C2_deny_all_denies_everything (x : Scope) :
    ScopePolicy.deny_all.evaluate x = .denied := by
  simp [ScopePolicy.deny_all, ScopePolicy.evaluate]

/-- C3: `Satisfies` holds iff every token of the requirement is present in
the presented scope; the empty requirement is satisfied by every scope; the
result is invariant under reordering of either side; extra presented tokens
never reduce satisfaction; and the concrete conjunction policy
`DenyAll().OrAllow(Parse("delete:profile admin"))` denies a partial match and
allows the full set in any order. -/
theorem C3_satisfies_set_containment :
    (∀ self req : Scope,
      (self.satisfies req = true ↔ ∀ t ∈ req.tokens, t ∈ self.tokens)) ∧
    (∀ self : Scope, self.satisfies ⟨[]⟩ = true) ∧
    (∀ s s' r r' : Scope, List.Perm s.tokens s'.tokens →
      List.Perm r.tokens r'.tokens → s.satisfies r = s'.satisfies r') ∧
    (∀ s s' r : Scope, s.tokens ⊆ s'.tokens → s.satisfies r = true →
      s'.satisfies r = true) ∧
    (∃ pol : ScopePolicy,
      buildPolicy ScopePolicy.deny_all ["delete:profile admin"] = some pol ∧
      pol.evaluate ⟨["delete:profile"]⟩ = .denied ∧
      pol.evaluate ⟨["admin", "delete:profile"]⟩ = .allowed) := by
  refine ⟨?_, ?_, ?_, ?_, ?_⟩
  · exact satisfies_iff
  · intro self
    simp [Scope.satisfies]
  · intro s s' r r' hs hr
    have : ∀ a b c d : Scope, List.Perm a.tokens b.tokens →
        List.Perm c.tokens d.tokens → a.satisfies c = true → b.satisfies d = true := by
      intro a b c d hab hcd hsat
      rw [satisfies_iff] at hsat ⊢
      intro t ht
      exact hab.mem_iff.mp (hsat t (hcd.mem_iff.mpr ht))
    rcases hb : s'.satisfies r' with _ | _
    · rcases ha : s.satisfies r with _ | _
      · rfl
      · exact absurd (this s s' r r' hs hr ha) (by simp [hb])
    · exact this s' s r' r hs.symm hr.symm hb
  · intro s s' r hsub hsat
    rw [satisfies_iff] at hsat ⊢
    intro t ht
    exact hsub (hsat t ht)
  · refine ⟨⟨[⟨["delete:profile", "admin"]⟩]⟩, ?_, ?_, ?_⟩
    · rw [buildPolicy_some]
      decide
    · decide
    · decide

/-- C3 witness: a concrete application of the order-independence and
widening parts of `C3_satisfies_set_containment`. -/
theorem C3_satisfies_set_containment_witness :
    ((⟨["admin", "delete:profile"]⟩ : Scope).satisfies ⟨["delete:profile", "admin"]⟩ =
      (⟨["delete:profile", "admin"]⟩ : Scope).satisfies ⟨["delete:profile", "admin"]⟩) ∧
    (⟨["admin", "extra"]⟩ : Scope).satisfies ⟨["admin"]⟩ = true := by
  constructor
  · exact C3_satisfies_set_containment.2.2.1 ⟨["admin", "delete:profile"]⟩
      ⟨["delete:profile", "admin"]⟩ ⟨["delete:profile", "admin"]⟩
      ⟨["delete:profile", "admin"]⟩ (by decide) (by decide)
  · exact C3_satisfies_set_containment.2.2.2.1 ⟨["admin"]⟩ ⟨["admin", "extra"]⟩
      ⟨["admin"]⟩ (by decide) (by decide)

/-- C4: monotonic widening: if `P` already allows `x`, or `x` satisfies the
new requirement `r`, then `P.OrAllow(r)` allows `x`; adding an alternative
never turns an allow into a deny. -/
theorem C4_or_allow_monotone (P : ScopePolicy) (r x : Scope)
    (h : P.evaluate x = .allowed ∨ x.satisfies r = true) :
    (P.or_allow r).evaluate x = .allowed := by
  rw [evaluate_allowed_iff]
  rcases h with h | h
  · rw [evaluate_allowed_iff] at h
    obtain ⟨a, ha, hs⟩ := h
    exact ⟨a, by simp [ScopePolicy.or_allow, ha], hs⟩
  · exact ⟨r, by simp [ScopePolicy.or_allow], h⟩

/-- C4 witness: a concrete application of `C4_or_allow_monotone` on each
side of the disjunctive hypothesis. -/
theorem C4_or_allow_monotone_witness :
    (ScopePolicy.deny_all.or_allow ⟨["a"]⟩).evaluate ⟨["a"]⟩ = .allowed ∧
    ((ScopePolicy.deny_all.or_allow ⟨["a"]⟩).or_allow ⟨["b"]⟩).evaluate ⟨["a"]⟩ =
      .allowed := by
  constructor
  · exact C4_or_allow_monotone ScopePolicy.deny_all ⟨["a"]⟩ ⟨["a"]⟩
      (Or.inr (by decide))
  · exact C4_or_allow_monotone (ScopePolicy.deny_all.or_allow ⟨["a"]⟩) ⟨["b"]⟩
      ⟨["a"]⟩ (Or.inl (C4_or_allow_monotone ScopePolicy.deny_all ⟨["a"]⟩ ⟨["a"]⟩
        (Or.inr (by decide))))

/-- C5: the guard boundary check has exactly three outcomes: `Ok` with the
claims when evaluation allows, `MissingClaims` exactly when no claims value
is available, and `InsufficientScopes` exactly when claims are present and
evaluation denies; the two errors are mutually exclusive. -/
theorem C5_from_request_outcomes {Claims : Type} (hasScope : Claims → Scope)
    (oc : Option Claims) (P : ScopePolicy) :
    (from_request hasScope oc P = .error .missingClaims ↔ oc = none) ∧
    (∀ c, from_request hasScope oc P = .ok c ↔
      (oc = some c ∧ P.evaluate (hasScope c) = .allowed)) ∧
    (from_request hasScope oc P = .error .insufficientScopes ↔
      ∃ c, oc = some c ∧ P.evaluate (hasScope c) = .denied) := by
  rcases oc with _ | c0
  · refine ⟨by simp [from_request], ?_, ?_⟩
    · intro c
      simp [from_request]
    · simp [from_request]
  · refine ⟨?_, ?_, ?_⟩
    · rcases h : P.evaluate (hasScope c0) with _ | _ <;> simp [from_request, h]
    · intro c
      rcases h : P.evaluate (hasScope c0) with _ | _
      · constructor
        · intro hok
          simp only [from_request, h] at hok
          cases hok
          exact ⟨rfl, h⟩
        · rintro ⟨hc, _⟩
          cases hc
          simp [from_request, h]
      · constructor
        · intro hok
          simp [from_request, h] at hok
        · rintro ⟨hc, hall⟩
          cases hc
          rw [h] at hall
          cases hall
    · rcases h : P.evaluate (hasScope c0) with _ | _
      · constructor
        · intro hbad
          simp [from_request, h] at hbad
        · rintro ⟨c, hc, hden⟩
          cases hc
          rw [h] at hden
          cases hden
      · constructor
        · intro _
          exact ⟨c0, rfl, h⟩
        · intro _
          simp [from_request, h]

/-- C5 witness: `C5_from_request_outcomes` applied at a concrete request,
showing the success, missing-claims and insufficient-scopes outcomes. -/
theorem C5_from_request_outcomes_witness :
    from_request (fun s : Scope => s) (some ⟨["admin"]⟩)
      (ScopePolicy.deny_all.or_allow ⟨["admin"]⟩) = .ok ⟨["admin"]⟩ ∧
    from_request (fun s : Scope => s) none
      (ScopePolicy.deny_all.or_allow ⟨["admin"]⟩) = .error .missingClaims ∧
    from_request (fun s : Scope => s) (some ⟨[]⟩)
      (ScopePolicy.deny_all.or_allow ⟨["admin"]⟩) = .error .insufficientScopes := by
  refine ⟨?_, ?_, ?_⟩
  · exact ((C5_from_request_outcomes (fun s : Scope => s) (some ⟨["admin"]⟩)
      (ScopePolicy.deny_all.or_allow ⟨["admin"]⟩)).2.1 ⟨["admin"]⟩).mpr
      ⟨rfl, by decide⟩
  · exact (C5_from_request_outcomes (fun s : Scope => s) none
      (ScopePolicy.deny_all.or_allow ⟨["admin"]⟩)).1.mpr rfl
  · exact (C5_from_request_outcomes (fun s : Scope => s) (some ⟨[]⟩)
      (ScopePolicy.deny_all.or_allow ⟨["admin"]⟩)).2.2.mpr ⟨⟨[]⟩, rfl, by decide⟩

/-- C6: evaluation is total — it returns a decision for every pair and has
no error outcome — while the guard policy construction (the unwrap of each
parse result at `macros.rs`, line 174) panics exactly when some scope
literal fails to parse, which under the whitespace-collapse rule never
happens: every guard policy is built successfully, and `MalformedToken` can
only ever arise before evaluation begins. -/
theorem C6_evaluate_cannot_fail :
    (∀ (P : ScopePolicy) (x : Scope),
      P.evaluate x = .allowed ∨ P.evaluate x = .denied) ∧
    (∀ (p0 : ScopePolicy) (lits : List String),
      (buildPolicy p0 lits = none ↔ ∃ s ∈ lits, ∃ e, Scope.parse s = .error e)) ∧
    (∀ i : ScopeGuardInput, ∃ P, scope_policy i = some P) := by
  refine ⟨?_, ?_, ?_⟩
  · intro P x
    unfold ScopePolicy.evaluate
    by_cases h : P.alternatives.any (fun a => x.satisfies a) = true
    · left
      simp [h]
    · right
      simp [h]
  · intro p0 lits
    constructor
    · intro hnone
      rw [buildPolicy_some] at hnone
      cases hnone
    · rintro ⟨s, _, e, hbad⟩
      rw [parse_ok] at hbad
      cases hbad
  · intro i
    unfold scope_policy
    rw [buildPolicy_some]
    exact ⟨_, rfl⟩

/-- C7: parsing collapses consecutive whitespace and drops empty tokens:
the empty literal and a blank literal both parse successfully to the empty
scope, and every literal made only of whitespace parses to the empty scope
rather than raising an error. -/
theorem C7_whitespace_parses_to_empty :
    Scope.parse "" = .ok ⟨[]⟩ ∧
    Scope.parse "   " = .ok ⟨[]⟩ ∧
    (∀ s : String, (∀ c ∈ s.data, c.isWhitespace) → Scope.parse s = .ok ⟨[]⟩) := by
  have hgen : ∀ s : String, (∀ c ∈ s.data, c.isWhitespace) → Scope.parse s = .ok ⟨[]⟩ := by
    intro s hws
    rw [parse_ok, tokenize_all_ws s.data hws]
    rfl
  exact ⟨hgen "" (by decide), hgen "   " (by decide), hgen⟩

/-- C7 witness: `C7_whitespace_parses_to_empty` applied to a concrete
literal made of a tab and a space. -/
theorem C7_whitespace_parses_to_empty_witness :
    Scope.parse "\t " = .ok ⟨[]⟩ :=
  C7_whitespace_parses_to_empty.2.2 "\t " (by decide)

/-- C9: every shape of the guard grammar is accepted: a bare literal becomes
a single alternative, a bracketed list becomes one alternative per literal,
the trailing separator in the bracketed forms is tolerated without changing
the expansion, and each accepted declaration yields its policy — the parse
of every literal folded over `deny_all`/`or_allow` — without error. -/
theorem C9_guard_grammar_accepted :
    (∀ n s, (scope_guard (.bare n s)).alternatives = [s]) ∧
    (∀ n c s, (scope_guard (.bareWithClaims n c s)).alternatives = [s]) ∧
    (∀ n ss b, (scope_guard (.bracketed n ss b)).alternatives = ss) ∧
    (∀ n c ss b, (scope_guard (.bracketedWithClaims n c ss b)).alternatives = ss) ∧
    (∀ n ss, scope_guard (.bracketed n ss true) = scope_guard (.bracketed n ss false)) ∧
    (∀ n c ss, scope_guard (.bracketedWithClaims n c ss true) =
      scope_guard (.bracketedWithClaims n c ss false)) ∧
    (∀ i : ScopeGuardInput, scope_policy i =
      some ⟨(scope_guard i).alternatives.map (fun s =>
        Scope.mk ((tokenize s.data []).map (fun cs => String.mk cs)))⟩) := by
  refine ⟨?_, ?_, ?_, ?_, ?_, ?_, ?_⟩
  · intro n s
    simp [scope_guard]
  · intro n c s
    simp [scope_guard]
  · intro n ss b
    simp [scope_guard]
  · intro n c ss b
    simp [scope_guard]
  · intro n ss
    simp [scope_guard]
  · intro n c ss
    simp [scope_guard]
  · intro i
    unfold scope_policy
    rw [buildPolicy_some]
    simp [ScopePolicy.deny_all]

/-- C10: a guard declared without an explicit claims type expands exactly as
if it had been declared with the default claims type
`::aliri_oauth2::oauth2::BasicClaimsWithScope`, in both the bare-literal and
bracketed-list forms. -/
theorem C10_default_claims_type :
    (∀ n s, scope_guard (.bare n s) =
      scope_guard (.bareWithClaims n defaultClaims s)) ∧
    (∀ n ss b, scope_guard (.bracketed n ss b) =
      scope_guard (.bracketedWithClaims n defaultClaims ss b)) ∧
    (∀ n s, (scope_guard (.bare n s)).claims = defaultClaims) ∧
    (∀ n ss b, (scope_guard (.bracketed n ss b)).claims = defaultClaims) ∧
    defaultClaims = "::aliri_oauth2::oauth2::BasicClaimsWithScope" := by
  refine ⟨?_, ?_, ?_, ?_, rfl⟩
  · intro n s
    simp [scope_guard]
  · intro n ss b
    simp [scope_guard]
  · intro n s
    simp [scope_guard]
  · intro n ss b
    simp [scope_guard]

/-- C1 witness: `C1_evaluate_any_alternative` applied to the disjunction
policy of the tests, `DenyAll().OrAllow("testing").OrAllow("testing2")`. -/
theorem C1_evaluate_any_alternative_witness :
    ((ScopePolicy.deny_all.or_allow ⟨["testing"]⟩).or_allow ⟨["testing2"]⟩).evaluate
      ⟨["testing"]⟩ = .allowed ∧
    ((ScopePolicy.deny_all.or_allow ⟨["testing"]⟩).or_allow ⟨["testing2"]⟩).evaluate
      ⟨["testing2"]⟩ = .allowed ∧
    ((ScopePolicy.deny_all.or_allow ⟨["testing"]⟩).or_allow ⟨["testing2"]⟩).evaluate
      ⟨["admin"]⟩ = .denied := by
  refine ⟨?_, ?_, ?_⟩
  · rw [C1_evaluate_any_alternative.2 ⟨["testing"]⟩ ⟨["testing2"]⟩ ⟨["testing"]⟩]
    decide
  · rw [C1_evaluate_any_alternative.2 ⟨["testing"]⟩ ⟨["testing2"]⟩ ⟨["testing2"]⟩]
    decide
  · rw [C1_evaluate_any_alternative.2 ⟨["testing"]⟩ ⟨["testing2"]⟩ ⟨["admin"]⟩]
    decide

/-- C2 witness: `C2_deny_all_denies_everything` applied to the empty scope. -/
theorem C2_deny_all_denies_everything_witness :
    ScopePolicy.deny_all.evaluate ⟨[]⟩ = .denied :=
  C2_deny_all_denies_everything ⟨[]⟩

/-- C6 witness: `C6_evaluate_cannot_fail` applied to `allow_all` on the
empty scope and to a concrete guard declaration. -/
theorem C6_evaluate_cannot_fail_witness :
    (ScopePolicy.allow_all.evaluate ⟨[]⟩ = .allowed ∨
      ScopePolicy.allow_all.evaluate ⟨[]⟩ = .denied) ∧
    (∃ P, scope_policy (.bare "AdminOnly" "admin") = some P) :=
  ⟨C6_evaluate_cannot_fail.1 ScopePolicy.allow_all ⟨[]⟩,
   C6_evaluate_cannot_fail.2.2 (.bare "AdminOnly" "admin")⟩

/-- C9 witness: `C9_guard_grammar_accepted` applied to the bracketed guard
declaration `Testing = ["testing" || "testing2"]` with a trailing comma. -/
theorem C9_guard_grammar_accepted_witness :
    scope_policy (.bracketed "Testing" ["testing", "testing2"] true) =
      some ⟨[⟨["testing"]⟩, ⟨["testing2"]⟩]⟩ := by
  rw [C9_guard_grammar_accepted.2.2.2.2.2.2
    (.bracketed "Testing" ["testing", "testing2"] true)]
  simp only [scope_guard]
  decide

/-- C10 witness: `C10_default_claims_type` applied to a concrete bare guard
declaration. -/
theorem C10_default_claims_type_witness :
    scope_guard (.bare "AdminOnly" "admin") =
      scope_guard (.bareWithClaims "AdminOnly" defaultClaims "admin") :=
  C10_default_claims_type.1 "AdminOnly" "admin"
